import Mathlib

set_option maxHeartbeats 1000000

namespace Heapster

/-! Association-list helpers.

Go maps (`map[string]*core.MetricSet`, `map[string]core.MetricValue`,
`map[string]string`) are embedded as association lists with a lookup that
returns the first binding and an insert that overwrites an existing binding
(appending when the key is absent).  Theorems about map-valued data carry a
`Nodup` hypothesis on the keys where first-binding semantics could diverge
from Go's unique-key maps. -/

def lookupA {κ α : Type} [DecidableEq κ] : List (κ × α) → κ → Option α
  | [], _ => none
  | p :: rest, k => if p.1 = k then some p.2 else lookupA rest k

def insertA {κ α : Type} [DecidableEq κ] (l : List (κ × α)) (k : κ) (v : α) : List (κ × α) :=
  if (lookupA l k).isSome then
    l.map (fun p => if p.1 = k then (k, v) else p)
  else l ++ [(k, v)]

def insFold {κ α : Type} [DecidableEq κ] (e : List (κ × α)) (l : List (κ × α)) : List (κ × α) :=
  l.foldl (fun acc kv => insertA acc kv.1 kv.2) e

/-! Metric values.

`core.MetricValue` is a tagged union of `int64` and `float64` (`ValueType`,
`IntValue`, `FloatValue`).  The float side is embedded with `Rat` (exact
arithmetic); none of the verified properties depends on float rounding. -/

inductive VType
  | int64
  | float64
deriving DecidableEq

structure MetricValue where
  ValueType : VType
  IntValue : Int
  FloatValue : Rat
deriving DecidableEq

def MetricValue.toFloatV (v : MetricValue) : Rat :=
  match v.ValueType with
  | .int64 => (v.IntValue : Rat)
  | .float64 => v.FloatValue

/-- Modelled from the spec: the aggregation sum rule of §4.4 ("value-type-preserving:
int+int stays int, float+int promotes to float").  The helper that the processors
call for this is absent from the sources; only its callers are present. -/
def addValues (a b : MetricValue) : MetricValue :=
  match a.ValueType, b.ValueType with
  | .int64, .int64 => ⟨.int64, a.IntValue + b.IntValue, 0⟩
  | _, _ => ⟨.float64, 0, a.toFloatV + b.toFloatV⟩

/-- MetricSet per §3 of the spec: `Labels` and `MetricValues`; the remaining
fields (`LabeledMetrics`, `CreateTime`, `ScrapeTime`) are never read or written
by the aggregators and are omitted from the embedding. -/
structure MetricSet where
  Labels : List (String × String)
  MetricValues : List (String × MetricValue)
deriving DecidableEq

/-- Modelled from the spec: the `aggregate(src, dst, metricsToAggregate)` helper
shared by the aggregators (absent from the sources; `NodeAggregator.Process` and
`ClusterAggregator.Process` call it).  Per §4.4: for each requested metric
defined on the child, add it to the parent's running sum; children without the
metric contribute zero; the parent's labels are not derived from children.
Per the spec the sum is total, so the error return that the callers check is
never taken in the model. -/
def aggregateMetric (src : MetricSet) (dst : MetricSet) (metricName : String) : MetricSet :=
  match lookupA src.MetricValues metricName with
  | none => dst
  | some v =>
    match lookupA dst.MetricValues metricName with
    | none => { dst with MetricValues := insertA dst.MetricValues metricName v }
    | some dv => { dst with MetricValues := insertA dst.MetricValues metricName (addValues dv v) }

def aggregate (src dst : MetricSet) (metricsToAggregate : List String) : MetricSet :=
  metricsToAggregate.foldl (fun acc m => aggregateMetric src acc m) dst

/-! Label registry and entity keys.

The `core` label registry is absent from the sources (only its uses are);
the key and value strings follow §3 of the spec: label key `metric_set_type`
with values among `sys_container, pod_container, pod, namespace, node, cluster`,
label key `nodename`, and canonical entity keys `cluster` and `node:<node>`. -/

def LabelMetricSetTypeKey : String := "metric_set_type"

def LabelNodenameKey : String := "nodename"

def MetricSetTypePod : String := "pod"

def MetricSetTypeNamespace : String := "namespace"

def MetricSetTypeSystemContainer : String := "sys_container"

def MetricSetTypeCluster : String := "cluster"

def NodeKey (node : String) : String := "node:" ++ node

def ClusterKey : String := "cluster"

/-! Heap of MetricSet objects.

In Go the batch maps entity keys to *pointers* to `MetricSet`; aggregation
mutates the pointed-to sets in place and the result batch shares them.  The
embedding makes the pointers explicit: an address-indexed heap of `MetricSet`
values, with batches holding addresses. -/

structure MSHeap where
  cells : List (Nat × MetricSet)
  next : Nat
deriving DecidableEq

def MSHeap.find (h : MSHeap) (a : Nat) : Option MetricSet := lookupA h.cells a

def MSHeap.update (h : MSHeap) (a : Nat) (v : MetricSet) : MSHeap :=
  { h with cells := h.cells.map (fun c => if c.1 = a then (a, v) else c) }

def MSHeap.alloc (h : MSHeap) (v : MetricSet) : Nat × MSHeap :=
  (h.next, { cells := (h.next, v) :: h.cells, next := h.next + 1 })

def MSHeap.WF (h : MSHeap) : Prop := ∀ c ∈ h.cells, c.1 < h.next

instance (h : MSHeap) : Decidable h.WF := by
  unfold MSHeap.WF
  infer_instance

/-- DataBatch per `core`: a timestamp and a map from entity key to (a pointer
to) a MetricSet. -/
structure DataBatch where
  Timestamp : Int
  MetricSets : List (String × Nat)
deriving DecidableEq

structure AggState where
  entries : List (String × Nat)
  heap : MSHeap
deriving DecidableEq

/-! NodeAggregator (src/metrics/processors/node_aggregator.go, lines 24-61). -/

structure NodeAggregator where
  MetricsToAggregate : List String

/-- One iteration of the loop body of `NodeAggregator.Process`: copy the entry
into the result, and if it is a `pod` set, aggregate it into its node parent
(looked up in the result first, then the input batch); a pod whose node is
absent is skipped with a warning; a pod without the `nodename` label makes the
whole call return a nil batch and an error. -/
def nodeProcessEntry (metricsToAggregate : List String) (batch : DataBatch)
    (st : AggState) (kv : String × Nat) : Except String AggState :=
  match st.heap.find kv.2 with
  | none => .ok ⟨insertA st.entries kv.1 kv.2, st.heap⟩
  | some metricSet =>
    match lookupA metricSet.Labels LabelMetricSetTypeKey with
    | none => .ok ⟨insertA st.entries kv.1 kv.2, st.heap⟩
    | some metricSetType =>
      if metricSetType = MetricSetTypePod then
        match lookupA metricSet.Labels LabelNodenameKey with
        | none => .error ("No node info in pod " ++ kv.1)
        | some nodeName =>
          match (lookupA (insertA st.entries kv.1 kv.2) (NodeKey nodeName)).orElse
              (fun _ => lookupA batch.MetricSets (NodeKey nodeName)) with
          | none => .ok ⟨insertA st.entries kv.1 kv.2, st.heap⟩
          | some nodeAddr =>
            match st.heap.find nodeAddr with
            | none => .ok ⟨insertA st.entries kv.1 kv.2, st.heap⟩
            | some node =>
              .ok ⟨insertA st.entries kv.1 kv.2,
                st.heap.update nodeAddr (aggregate metricSet node metricsToAggregate)⟩
      else .ok ⟨insertA st.entries kv.1 kv.2, st.heap⟩

def NodeAggregator.Process (this : NodeAggregator) (h : MSHeap) (batch : DataBatch) :
    Except String (MSHeap × DataBatch) := do
  let st ← batch.MetricSets.foldlM (nodeProcessEntry this.MetricsToAggregate batch) (⟨[], h⟩ : AggState)
  return (st.heap, { Timestamp := batch.Timestamp, MetricSets := st.entries })

/-! ClusterAggregator (src/unnamed/part_001, lines 440-481). -/

structure ClusterAggregator where
  MetricsToAggregate : List String

/-- The fresh cluster parent synthesised by `clusterMetricSet()`: empty metric
values and only the `metric_set_type` label. -/
def clusterMetricSet : MetricSet :=
  { Labels := [(LabelMetricSetTypeKey, MetricSetTypeCluster)], MetricValues := [] }

def clusterAggregateInto (metricsToAggregate : List String) (st : AggState)
    (clusterAddr : Nat) (ms : MetricSet) : AggState :=
  match st.heap.find clusterAddr with
  | none => st
  | some cluster => { st with heap := st.heap.update clusterAddr (aggregate ms cluster metricsToAggregate) }

/-- One iteration of the loop body of `ClusterAggregator.Process`: copy the
entry into the result, and if it is a `namespace` or `sys_container` set,
aggregate it into the cluster set, synthesising the cluster set in the result
if the result does not yet hold one. -/
def clusterProcessEntry (metricsToAggregate : List String) (st : AggState)
    (kv : String × Nat) : AggState :=
  match st.heap.find kv.2 with
  | none => ⟨insertA st.entries kv.1 kv.2, st.heap⟩
  | some metricSet =>
    match lookupA metricSet.Labels LabelMetricSetTypeKey with
    | none => ⟨insertA st.entries kv.1 kv.2, st.heap⟩
    | some metricSetType =>
      if metricSetType = MetricSetTypeNamespace ∨ metricSetType = MetricSetTypeSystemContainer then
        match lookupA (insertA st.entries kv.1 kv.2) ClusterKey with
        | some ca =>
          clusterAggregateInto metricsToAggregate ⟨insertA st.entries kv.1 kv.2, st.heap⟩ ca metricSet
        | none =>
          clusterAggregateInto metricsToAggregate
            ⟨insertA (insertA st.entries kv.1 kv.2) ClusterKey (st.heap.alloc clusterMetricSet).1,
              (st.heap.alloc clusterMetricSet).2⟩
            (st.heap.alloc clusterMetricSet).1 metricSet
      else ⟨insertA st.entries kv.1 kv.2, st.heap⟩

def ClusterAggregator.Process (this : ClusterAggregator) (h : MSHeap) (batch : DataBatch) :
    Except String (MSHeap × DataBatch) :=
  let st := batch.MetricSets.foldl (clusterProcessEntry this.MetricsToAggregate) (⟨[], h⟩ : AggState)
  .ok (st.heap, { Timestamp := batch.Timestamp, MetricSets := st.entries })

/-- A MetricSet whose `metric_set_type` makes `ClusterAggregator.Process`
aggregate it into the cluster set (`namespace` or `sys_container`). -/
def isClusterContributor (ms : MetricSet) : Bool :=
  match lookupA ms.Labels LabelMetricSetTypeKey with
  | some t => decide (t = MetricSetTypeNamespace ∨ t = MetricSetTypeSystemContainer)
  | none => false

/-- The contributing child sets of a batch, resolved against a heap, in batch
order. -/
def contributorSets (h : MSHeap) (entries : List (String × Nat)) : List MetricSet :=
  entries.filterMap (fun kv =>
    match h.find kv.2 with
    | some ms => if isClusterContributor ms then some ms else none
    | none => none)

def clusterFoldValue (metrics : List String) (init : MetricSet) (children : List MetricSet) : MetricSet :=
  children.foldl (fun acc ms => aggregate ms acc metrics) init

/-! StatStore.

Modelled from the spec (§4.2): the implementation is absent from the sources,
which hold only its tests (the `package store` test file embedded in
src/sources/api/types.go).  Where the spec's prose and the repository's tests
disagree, the tests take precedence, being code of the repository:

* the `lastPut` staging slot accumulates the count and the sum of the raw
  values observed in the open resolution, and committing stores the epsilon
  bucket of their average — `TestLast` (lines 643-685) puts 55, 1, 12, 77,
  50000 in one minute, states "Average: 10029, Max: 50000" and then asserts
  the committed value 10030, the bucket of the average (not of the max);
* the committed ring is compressed into runs of consecutive equal bucket
  values ("a multi-resolution bucket", `TestGet` line 896), and `Get`'s lower
  bound drops whole runs whose newest sample is not after `start` — `TestGet`
  asserts that `Get(m3, m5)` keeps the sample at `m3 = start` (lines 986-999,
  it extends a run reaching `m5`) while `Get(m2, m6)` omits the sample at
  `m2 = start` (lines 1001-1020, it is the newest of its run).

Timestamps and durations are abstract `Nat` ticks; all divisions arising on
the repository's test traces are exact, so the integer average agrees with
them.  The model below reproduces every assertion of `TestLast` and `TestGet`
(theorems `testLast_trace_*`, `testGet_trace_*`). -/

structure TimePoint where
  Timestamp : Nat
  Value : Nat
deriving DecidableEq

structure LastPutState where
  stamp : Nat
  count : Nat
  sum : Nat
deriving DecidableEq

structure StatStore where
  epsilon : Nat
  resolution : Nat
  capacity : Nat
  buffer : List TimePoint
  lastPut : Option LastPutState
deriving DecidableEq

def NewStatStore (epsilon resolution capacity : Nat) : StatStore :=
  ⟨epsilon, resolution, capacity, [], none⟩

/-- The canonical bucket of a value: the least multiple of `epsilon` that is
not below it (§4.2, "bucket index of value `v` is `ceil(v / epsilon) * epsilon`"). -/
def StatStore.bucket (s : StatStore) (v : Nat) : Nat :=
  ((v + s.epsilon - 1) / s.epsilon) * s.epsilon

def StatStore.trunc (s : StatStore) (t : Nat) : Nat :=
  t / s.resolution * s.resolution

/-- Lazy gap fill: the `count` skipped resolutions right after `fromStamp`,
each holding a copy of the last committed bucket value, newest first. -/
def gapPoints (res count fromStamp v : Nat) : List TimePoint :=
  (List.range count).reverse.map (fun i => ⟨fromStamp + (i + 1) * res, v⟩)

def StatStore.put (s : StatStore) (tp : TimePoint) : Except String StatStore :=
  let stamp := s.trunc tp.Timestamp
  match s.lastPut with
  | none => .ok { s with lastPut := some ⟨stamp, 1, tp.Value⟩ }
  | some lp =>
    if stamp < lp.stamp then
      .error "the provided timepoint is earlier than the last inserted timepoint"
    else if stamp = lp.stamp then
      .ok { s with lastPut := some ⟨lp.stamp, lp.count + 1, lp.sum + tp.Value⟩ }
    else
      let committedValue := s.bucket (lp.sum / lp.count)
      let gaps := (stamp - lp.stamp) / s.resolution - 1
      let filled := gapPoints s.resolution gaps lp.stamp committedValue
      .ok { s with
            buffer := (filled ++ ⟨lp.stamp, committedValue⟩ :: s.buffer).take s.capacity,
            lastPut := some ⟨stamp, 1, tp.Value⟩ }

/-- A put as the tests drive it: on error the store is left unchanged (the Go
call returns an error without mutating state). -/
def StatStore.putGo (s : StatStore) (t v : Nat) : StatStore :=
  match s.put ⟨t, v⟩ with
  | .ok s2 => s2
  | .error _ => s

/-- Last returns the most recently committed bucket, never the staging slot;
`none` stands for the `Empty` error when nothing is committed. -/
def StatStore.last (s : StatStore) : Option TimePoint := s.buffer.head?

/-- The keep decision for one point of the committed buffer, walked newest
first: a point inherits the decision of its run (consecutive equal bucket
values); the newest point of each run decides the run by `start < Timestamp`. -/
def startKeepDecide (start : Nat) (rs : Option (Nat × Bool)) (p : TimePoint) : Bool :=
  match rs with
  | some vk => if p.Value = vk.1 then vk.2 else decide (start < p.Timestamp)
  | none => decide (start < p.Timestamp)

/-- The run-level lower bound of `Get`. -/
def startKeep (start : Nat) : Option (Nat × Bool) → List TimePoint → List TimePoint
  | _, [] => []
  | rs, p :: rest =>
    if startKeepDecide start rs p then
      p :: startKeep start (some (p.Value, startKeepDecide start rs p)) rest
    else startKeep start (some (p.Value, startKeepDecide start rs p)) rest

/-- Get returns committed samples newest first; a zero bound means unbounded
on that side; `end` is inclusive and applied per point; `start` is applied per
run via `startKeep`. -/
def StatStore.Get (s : StatStore) (startT endT : Nat) : List TimePoint :=
  if s.buffer.isEmpty then []
  else if startT ≠ 0 ∧ endT ≠ 0 ∧ endT < startT then []
  else if endT = 0 then
    (if startT = 0 then s.buffer else startKeep startT none s.buffer)
  else
    (if startT = 0 then s.buffer else startKeep startT none s.buffer).filter
      (fun p => p.Timestamp ≤ endT)

/-- Well-formedness of a store: committed timestamps strictly decrease (newest
first) and are positive (a zero time is the unset sentinel in Go). -/
def StatStore.WF (s : StatStore) : Prop :=
  s.buffer.Pairwise (fun a b => b.Timestamp < a.Timestamp) ∧ ∀ p ∈ s.buffer, 0 < p.Timestamp

instance (s : StatStore) : Decidable s.WF := by
  unfold StatStore.WF
  exact instDecidableAnd

/-! Startup flag validation (src/metrics/processors/node_aggregator.go,
`validateFlags` lines 253-264 and `main` lines 114-135).  Durations are int64
nanoseconds, as Go's `time.Duration`. -/

structure HeapsterFlags where
  metricResolution : Int
  tlsCert : String
  tlsKey : String
  tlsClientCA : String

inductive FlagError
  | resolutionTooLow
  | tlsPairIncomplete
  | clientCAWithoutCert
deriving DecidableEq

def fiveSecondsNs : Int := 5000000000

def validateFlags (f : HeapsterFlags) : Option FlagError :=
  if f.metricResolution < fiveSecondsNs then some .resolutionTooLow
  else if (f.tlsCert.length > 0 ∧ f.tlsKey.length = 0) ∨ (f.tlsCert.length = 0 ∧ f.tlsKey.length > 0) then
    some .tlsPairIncomplete
  else if f.tlsClientCA.length > 0 ∧ f.tlsCert.length = 0 then some .clientCAWithoutCert
  else none

/-- Whether startup aborts fatally before any scraping: `main` calls
`glog.Fatal` when `validateFlags` errors, and again when the number of
`--source` flags is not exactly one, all before building the source manager. -/
def startupFatal (f : HeapsterFlags) (numSources : Nat) : Bool :=
  (validateFlags f).isSome || numSources != 1

/-! Sink holder worker (src/sinks/manager.go, `NewDataSinkManager` lines
55-84 and `sinkManager.Stop` lines 111-127).  The per-holder goroutine loops
over a select on the data and stop channels; the value received on the stop
channel decides termination. -/

inductive SinkMsg
  | data
  | stop (b : Bool)
deriving DecidableEq

inductive WorkerPhase
  | running
  | stopped
deriving DecidableEq

/-- One reaction of the holder worker: a data message is exported and the loop
continues; a stop message calls `sink.Stop()` and returns only when the
received boolean is true; a terminated worker receives nothing further. -/
def workerStep : WorkerPhase → SinkMsg → WorkerPhase
  | .stopped, _ => .stopped
  | .running, .data => .running
  | .running, .stop b => if b then .stopped else .running

def runWorker (msgs : List SinkMsg) : WorkerPhase :=
  msgs.foldl workerStep .running

/-- The boolean `sinkManager.Stop` sends on every holder's stop channel
(`sh.stopChannel <- true`). -/
def managerStopSignal : Bool := true

/-! Supported metrics: the cpu/limit and cpu/request registry entries
(src/core/metrics.go, lines 57-87).  `spec.Cpu.Limit` is a `uint64` of CPU
shares (cadvisor v1); `spec.CpuRequest` is an `int64` already in millicores
(the named `ContainerSpec` wrapper is absent from the sources; field and unit
follow §4.1 and §6 of the spec).  `int64(x)` reinterprets the `uint64` product
two's-complement; Go's `/` on int64 truncates toward zero. -/

def UINT64MOD : Nat := 18446744073709551616

def INT64HALF : Nat := 9223372036854775808

def toInt64 (n : Nat) : Int :=
  if n % UINT64MOD < INT64HALF then ((n % UINT64MOD : Nat) : Int)
  else ((n % UINT64MOD : Nat) : Int) - (UINT64MOD : Int)

structure CpuSpec where
  Limit : Nat
deriving DecidableEq

structure ContainerSpec where
  HasCpu : Bool
  Cpu : CpuSpec
  CpuRequest : Int
deriving DecidableEq

def cpuLimitHasValue (spec : ContainerSpec) : Bool :=
  spec.HasCpu && decide (spec.Cpu.Limit > 0)

def cpuLimitGetValue (spec : ContainerSpec) : Int :=
  Int.tdiv (toInt64 (spec.Cpu.Limit * 1000)) 1024

def cpuRequestHasValue (spec : ContainerSpec) : Bool :=
  decide (spec.CpuRequest > 0)

def cpuRequestGetValue (spec : ContainerSpec) : Int :=
  spec.CpuRequest

/-! Concrete fixtures used by counterexamples and witnesses. -/

def keysOf {κ α : Type} (l : List (κ × α)) : List κ := l.map Prod.fst

def podSetNoNodename : MetricSet :=
  { Labels := [(LabelMetricSetTypeKey, MetricSetTypePod)], MetricValues := [] }

def podSetOnNode (n : String) : MetricSet :=
  { Labels := [(LabelMetricSetTypeKey, MetricSetTypePod), (LabelNodenameKey, n)],
    MetricValues := [("cpu/usage_rate", ⟨.int64, 100, 0⟩)] }

def namespaceSet : MetricSet :=
  { Labels := [(LabelMetricSetTypeKey, MetricSetTypeNamespace)],
    MetricValues := [("cpu/usage_rate", ⟨.int64, 100, 0⟩)] }

def heapNoNodename : MSHeap := ⟨[(0, podSetNoNodename)], 1⟩

def batchNoNodename : DataBatch := ⟨100, [("ns:default/pod:p1", 0)]⟩

def heapPodOnly : MSHeap := ⟨[(0, podSetOnNode "n1")], 1⟩

def batchPodOnly : DataBatch := ⟨100, [("ns:default/pod:p1", 0)]⟩

def heapNamespace : MSHeap := ⟨[(0, namespaceSet)], 1⟩

def batchNamespace : DataBatch := ⟨100, [("ns:default", 0)]⟩

/-! Validation of the StatStore model against the repository's own tests.

`testLastStore*` replays `TestLast` (epsilon 10, resolution one minute,
capacity 60; the base minute `now` is tick 600) and `testGetStore*` replays
`TestGet` (epsilon 100, resolution one minute, capacity 5); minutes are ticks
of 60.  Each theorem below is one of the test's assertions. -/

def testLastStore1 : StatStore :=
  (((((NewStatStore 10 60 60).putGo 600 55).putGo 601 1).putGo 600 12).putGo 601 77).putGo 601 50000

def testLastStore2 : StatStore := testLastStore1.putGo 660 92

def testLastStore3 : StatStore := testLastStore2.putGo 780 10000

theorem testLast_trace_staging : testLastStore1.lastPut = some ⟨600, 5, 50145⟩ := by decide

theorem testLast_trace_empty : testLastStore1.last = none := by decide

theorem testLast_trace_outOfOrder :
    testLastStore1.put ⟨480, 100000⟩ =
      .error "the provided timepoint is earlier than the last inserted timepoint" := by rfl

theorem testLast_trace_commit : testLastStore2.last = some ⟨600, 10030⟩ := by decide

theorem testLast_trace_gapfill : testLastStore3.last = some ⟨720, 100⟩ := by decide

def testGetStore2 : StatStore :=
  ((((NewStatStore 100 60 5).putGo 600 120).putGo 600 190).putGo 601 140).putGo 660 599

def testGetStore3 : StatStore := testGetStore2.putGo 720 22

def testGetStore4 : StatStore := (testGetStore3.putGo 720 110).putGo 780 511

def testGetStore5 : StatStore := (testGetStore4.putGo 840 540).putGo 900 550

def testGetStore6 : StatStore := testGetStore5.putGo 960 750

def testGetStore7 : StatStore := testGetStore6.putGo 1020 998

def testGetStore8 : StatStore := testGetStore7.putGo 2100 1500

theorem testGet_trace_one : testGetStore2.Get 0 0 = [⟨600, 200⟩] := by decide

theorem testGet_trace_two : testGetStore3.Get 0 0 = [⟨660, 600⟩, ⟨600, 200⟩] := by decide

theorem testGet_trace_three :
    testGetStore4.Get 0 0 = [⟨720, 100⟩, ⟨660, 600⟩, ⟨600, 200⟩] := by decide

theorem testGet_trace_full :
    testGetStore5.Get 0 0 = [⟨840, 600⟩, ⟨780, 600⟩, ⟨720, 100⟩, ⟨660, 600⟩, ⟨600, 200⟩] := by
  decide

theorem testGet_trace_rewind_one :
    testGetStore6.Get 0 0 = [⟨900, 600⟩, ⟨840, 600⟩, ⟨780, 600⟩, ⟨720, 100⟩, ⟨660, 600⟩] := by
  decide

theorem testGet_trace_rewind_two :
    testGetStore7.Get 0 0 = [⟨960, 800⟩, ⟨900, 600⟩, ⟨840, 600⟩, ⟨780, 600⟩, ⟨720, 100⟩] := by
  decide

theorem testGet_trace_startAfterEnd : testGetStore7.Get 1200 600 = [] := by decide

theorem testGet_trace_midRange :
    testGetStore7.Get 780 900 = [⟨900, 600⟩, ⟨840, 600⟩, ⟨780, 600⟩] := by decide

theorem testGet_trace_fullRange :
    testGetStore7.Get 720 960 = [⟨960, 800⟩, ⟨900, 600⟩, ⟨840, 600⟩, ⟨780, 600⟩] := by decide

theorem testGet_trace_outOfScope : testGetStore7.Get 480 660 = [] := by decide

theorem testGet_trace_futurePut :
    testGetStore8.Get 0 0 =
      [⟨2040, 1000⟩, ⟨1980, 1000⟩, ⟨1920, 1000⟩, ⟨1860, 1000⟩, ⟨1800, 1000⟩] := by decide

/-- C2 (counterexample): with epsilon 10 and puts of 55, 1, 12, 77, 50000
inside one minute, committing the slot leaves `Last()` at 10030 — the bucket
of the average 10029, as `TestLast` asserts — and not at `bucket(50000) =
50000` as the claim states. -/
theorem statStore_staging_counterexample :
    testLastStore2.last = some ⟨600, 10030⟩ ∧
    testLastStore2.bucket 50000 = 50000 ∧
    testLastStore2.last ≠ some ⟨600, 50000⟩ := by decide

/-- Merge step of `Put`: a timestamp in the open resolution accumulates into
the staging slot and leaves the committed buffer untouched. -/
theorem put_merge_same (s : StatStore) (lp : LastPutState) (t v : Nat)
    (hlp : s.lastPut = some lp) (htr : s.trunc t = lp.stamp) :
    s.put ⟨t, v⟩ = .ok { s with lastPut := some ⟨lp.stamp, lp.count + 1, lp.sum + v⟩ } := by
  unfold StatStore.put
  rw [hlp]
  simp only [htr, lt_irrefl, if_false, if_pos rfl, if_true]

/-- Commit step of `Put`: a timestamp in the next resolution commits the
staging slot as the epsilon bucket of the average of its raw values. -/
theorem put_commit_next (s : StatStore) (lp : LastPutState) (t2 v2 : Nat)
    (hlp : s.lastPut = some lp) (htr : s.trunc t2 = lp.stamp + s.resolution)
    (hres : 0 < s.resolution) :
    s.put ⟨t2, v2⟩ = .ok { s with
      buffer := (gapPoints s.resolution ((lp.stamp + s.resolution - lp.stamp) / s.resolution - 1)
          lp.stamp (s.bucket (lp.sum / lp.count)) ++
        ⟨lp.stamp, s.bucket (lp.sum / lp.count)⟩ :: s.buffer).take s.capacity,
      lastPut := some ⟨lp.stamp + s.resolution, 1, v2⟩ } := by
  unfold StatStore.put
  rw [hlp]
  simp only [htr]
  have hnotlt : ¬ (lp.stamp + s.resolution < lp.stamp) := by omega
  have hne : ¬ (lp.stamp + s.resolution = lp.stamp) := by omega
  simp only [if_neg hnotlt, if_neg hne]

/-- C2 (amended): a Put whose timestamp falls in the resolution period of the
open `lastPut` staging slot merges by accumulating the count and sum of the
observed raw values, leaving the committed buffer untouched; when a Put of the
following resolution commits the slot, `Last()` returns the epsilon bucket of
the average of the staged raw values. -/
theorem statStore_staging_commit (s : StatStore) (lp : LastPutState) (t v t2 v2 : Nat)
    (h1 : s.lastPut = some lp)
    (h2 : s.trunc t = lp.stamp)
    (h3 : s.trunc t2 = lp.stamp + s.resolution)
    (h4 : 0 < s.resolution)
    (h5 : 0 < s.capacity) :
    ∃ s1 s2, s.put ⟨t, v⟩ = .ok s1 ∧
      s1.lastPut = some ⟨lp.stamp, lp.count + 1, lp.sum + v⟩ ∧
      s1.buffer = s.buffer ∧
      s1.put ⟨t2, v2⟩ = .ok s2 ∧
      s2.last = some ⟨lp.stamp, s.bucket ((lp.sum + v) / (lp.count + 1))⟩ := by
  refine ⟨_, _, put_merge_same s lp t v h1 h2, rfl, rfl,
    put_commit_next _ ⟨lp.stamp, lp.count + 1, lp.sum + v⟩ t2 v2 rfl h3 h4, ?_⟩
  have hgaps : (lp.stamp + s.resolution - lp.stamp) / s.resolution - 1 = 0 := by
    rw [Nat.add_sub_cancel_left, Nat.div_self h4]
  unfold StatStore.last
  simp only [hgaps, gapPoints, List.range_zero, List.reverse_nil, List.map_nil, List.nil_append]
  obtain ⟨k, hk⟩ := Nat.exists_eq_succ_of_ne_zero (Nat.pos_iff_ne_zero.mp h5)
  rw [hk]
  simp [List.take_succ_cons, StatStore.bucket]

/-- C2 (witness). -/
theorem statStore_staging_commit_witness :
    testLastStore1.lastPut = some ⟨600, 5, 50145⟩ ∧
    ∃ s1 s2, testLastStore1.put ⟨601, 7⟩ = .ok s1 ∧
      s1.lastPut = some ⟨600, 5 + 1, 50145 + 7⟩ ∧
      s1.buffer = testLastStore1.buffer ∧
      s1.put ⟨660, 92⟩ = .ok s2 ∧
      s2.last = some ⟨600, testLastStore1.bucket ((50145 + 7) / (5 + 1))⟩ :=
  ⟨by decide,
   statStore_staging_commit testLastStore1 ⟨600, 5, 50145⟩ 601 7 660 92
     (by decide) (by decide) (by decide) (by decide) (by decide)⟩

/-- C5 (counterexample): `Get(m3, m5)` on the `TestGet` store returns the
sample at timestamp `m3 = start` (it extends a run of equal committed buckets
whose newest sample is after `start`), contradicting "excludes any sample
whose timestamp equals start"; the repository's test asserts exactly this
three-element result. -/
theorem statStore_get_startBoundary_counterexample :
    testGetStore7.Get 780 900 = [⟨900, 600⟩, ⟨840, 600⟩, ⟨780, 600⟩] ∧
    (⟨780, 600⟩ : TimePoint) ∈ testGetStore7.Get 780 900 := by decide

/-- C6 (counterexample): for a spec with CPU shares `2^54` the metric has a
value, but `int64(Limit*1000) / 1024` wraps (the `uint64` product reinterpreted
as `int64` is negative), so GetValue is not the raw shares value multiplied by
1000 and integer-divided by 1024. -/
theorem cpuLimit_overflow_counterexample :
    cpuLimitHasValue ⟨true, ⟨18014398509481984⟩, 0⟩ = true ∧
    cpuLimitGetValue ⟨true, ⟨18014398509481984⟩, 0⟩ = -422212465065984 ∧
    (18014398509481984 * 1000) / 1024 = 17592186044416000 ∧
    ((-422212465065984 : Int) ≠ ((17592186044416000 : Nat) : Int)) := by decide

/-- C6 (amended): whenever the cpu/limit metric has a value and the shares
value times 1000 fits in int64, GetValue returns the raw shares value
multiplied by 1000 and integer-divided by 1024 (millicores); cpu/request
returns the CpuRequest field unchanged, which is already in millicores. -/
theorem cpuMetrics_millicores (spec : ContainerSpec)
    (h1 : cpuLimitHasValue spec = true)
    (h2 : spec.Cpu.Limit * 1000 < INT64HALF) :
    cpuLimitGetValue spec = ((spec.Cpu.Limit * 1000 / 1024 : Nat) : Int) ∧
    cpuRequestGetValue spec = spec.CpuRequest := by
  constructor
  · unfold cpuLimitGetValue toInt64
    have hmod : spec.Cpu.Limit * 1000 % UINT64MOD = spec.Cpu.Limit * 1000 :=
      Nat.mod_eq_of_lt (lt_trans h2 (by norm_num [INT64HALF, UINT64MOD]))
    simp only [hmod, if_pos h2]
    rfl
  · rfl

/-- C6 (witness). -/
theorem cpuMetrics_millicores_witness :
    cpuLimitHasValue ⟨true, ⟨1024⟩, 5⟩ = true ∧
    (1024 : Nat) * 1000 < INT64HALF ∧
    (cpuLimitGetValue ⟨true, ⟨1024⟩, 5⟩ = ((1024 * 1000 / 1024 : Nat) : Int) ∧
     cpuRequestGetValue ⟨true, ⟨1024⟩, 5⟩ = 5) :=
  ⟨by decide, by decide, cpuMetrics_millicores ⟨true, ⟨1024⟩, 5⟩ (by decide) (by decide)⟩

/-- C7: startup flag validation is fatal exactly on an invalid configuration:
a metric resolution under five seconds is rejected, a resolution of exactly
five seconds or more passes the resolution check, a source count other than
one is fatal, and startup proceeds iff validation passes and exactly one
source is given. -/
theorem startup_flagValidation (f : HeapsterFlags) (n : Nat) :
    (f.metricResolution < fiveSecondsNs → (validateFlags f).isSome = true) ∧
    (fiveSecondsNs ≤ f.metricResolution → validateFlags f ≠ some .resolutionTooLow) ∧
    (n ≠ 1 → startupFatal f n = true) ∧
    (startupFatal f n = false ↔ validateFlags f = none ∧ n = 1) := by
  refine ⟨?_, ?_, ?_, ?_⟩
  · intro hlt
    unfold validateFlags
    rw [if_pos hlt]
    rfl
  · intro hge
    unfold validateFlags
    rw [if_neg (not_lt.mpr hge)]
    split
    · simp
    · split
      · simp
      · simp
  · intro hn
    unfold startupFatal
    have : (n != 1) = true := by simpa using hn
    rw [this, Bool.or_true]
  · unfold startupFatal
    constructor
    · intro h
      rcases Bool.or_eq_false_iff.mp h with ⟨h1, h2⟩
      exact ⟨Option.not_isSome_iff_eq_none.mp (by simp [h1]), by simpa using h2⟩
    · rintro ⟨h1, h2⟩
      subst h2
      rw [h1]
      rfl

/-- C7 (witness). -/
theorem startup_flagValidation_witness :
    (validateFlags ⟨1000000000, "", "", ""⟩).isSome = true ∧
    validateFlags ⟨5000000000, "", "", ""⟩ ≠ some .resolutionTooLow ∧
    startupFatal ⟨5000000000, "", "", ""⟩ 2 = true ∧
    (startupFatal ⟨5000000000, "", "", ""⟩ 1 = false ↔
      validateFlags ⟨5000000000, "", "", ""⟩ = none ∧ 1 = 1) :=
  ⟨(startup_flagValidation ⟨1000000000, "", "", ""⟩ 1).1 (by decide),
   (startup_flagValidation ⟨5000000000, "", "", ""⟩ 1).2.1 (by decide),
   (startup_flagValidation ⟨5000000000, "", "", ""⟩ 2).2.2.1 (by decide),
   (startup_flagValidation ⟨5000000000, "", "", ""⟩ 1).2.2.2⟩

/-- The worker loop ignores messages after termination. -/
theorem runWorker_stopped_absorbs (msgs : List SinkMsg) :
    msgs.foldl workerStep .stopped = .stopped := by
  induction msgs with
  | nil => rfl
  | cons m rest ih => simpa [workerStep] using ih

/-- C10: the sink holder worker calls `sink.Stop()` and terminates exactly
when the value true arrives on its stop channel; receiving false leaves the
worker looping; and `sinkManager.Stop` only ever sends true, so a delivered
stop signal is terminal. -/
theorem sinkHolder_stop_semantics (msgs : List SinkMsg) :
    (runWorker msgs = .stopped ↔ SinkMsg.stop true ∈ msgs) ∧
    workerStep .running (.stop false) = .running ∧
    workerStep .running (.stop managerStopSignal) = .stopped := by
  refine ⟨?_, rfl, rfl⟩
  induction msgs with
  | nil => simp [runWorker]
  | cons m rest ih =>
    cases m with
    | data => simpa [runWorker, workerStep, List.mem_cons] using ih
    | stop b =>
      cases b with
      | true =>
        simp [runWorker, workerStep, List.mem_cons, List.foldl,
          runWorker_stopped_absorbs rest]
      | false => simpa [runWorker, workerStep, List.mem_cons, List.foldl] using ih


/-! Association-list lemmas. -/

section AssocLemmas

variable {κ α : Type} [DecidableEq κ]

theorem lookupA_mem {l : List (κ × α)} {k : κ} {v : α} (h : lookupA l k = some v) :
    (k, v) ∈ l := by
  induction l with
  | nil => simp [lookupA] at h
  | cons p rest ih =>
    by_cases hp : p.1 = k
    · rw [lookupA, if_pos hp] at h
      injection h with h
      have hpv : p = (k, v) := by
        cases p
        simp_all
      rw [← hpv]
      exact List.mem_cons_self _ _
    · rw [lookupA, if_neg hp] at h
      exact List.mem_cons_of_mem _ (ih h)

theorem lookupA_isSome_iff {l : List (κ × α)} {k : κ} :
    (lookupA l k).isSome = true ↔ k ∈ keysOf l := by
  induction l with
  | nil => simp [lookupA, keysOf]
  | cons p rest ih =>
    by_cases hp : p.1 = k
    · simp [lookupA, if_pos hp, keysOf, hp.symm]
    · simp only [lookupA, if_neg hp, keysOf, List.map_cons, List.mem_cons]
      rw [ih]
      simp [keysOf, Ne.symm hp]

theorem lookupA_eq_none {l : List (κ × α)} {k : κ} (h : k ∉ keysOf l) :
    lookupA l k = none := by
  rcases ho : lookupA l k with _ | v
  · rfl
  · exact absurd (lookupA_isSome_iff.mp (by rw [ho]; rfl)) h

theorem lookupA_append (l₁ l₂ : List (κ × α)) (k : κ) :
    lookupA (l₁ ++ l₂) k = (lookupA l₁ k).orElse fun _ => lookupA l₂ k := by
  induction l₁ with
  | nil => simp [lookupA]
  | cons p rest ih =>
    by_cases hp : p.1 = k
    · simp [lookupA, if_pos hp]
    · simp [lookupA, if_neg hp, ih]

theorem lookupA_map_replace_self (l : List (κ × α)) (k : κ) (v : α) :
    lookupA (l.map fun p => if p.1 = k then (k, v) else p) k = (lookupA l k).map fun _ => v := by
  induction l with
  | nil => rfl
  | cons p rest ih =>
    by_cases hp : p.1 = k
    · simp [lookupA, hp]
    · simp [lookupA, hp, ih]

theorem lookupA_map_replace_ne (l : List (κ × α)) (k k' : κ) (v : α) (hne : k' ≠ k) :
    lookupA (l.map fun p => if p.1 = k then (k, v) else p) k' = lookupA l k' := by
  induction l with
  | nil => rfl
  | cons p rest ih =>
    by_cases hp : p.1 = k
    · have h1 : ¬ (k = k') := fun hc => hne hc.symm
      have h2 : ¬ (p.1 = k') := by
        rw [hp]
        exact h1
      simp [lookupA, hp, h1, h2, ih]
    · simp [lookupA, hp, ih]

theorem lookupA_insertA_self (l : List (κ × α)) (k : κ) (v : α) :
    lookupA (insertA l k v) k = some v := by
  unfold insertA
  split
  · rename_i hs
    rw [lookupA_map_replace_self]
    rcases ho : lookupA l k with _ | w
    · rw [ho] at hs
      cases hs
    · rfl
  · rename_i hs
    have hnone : lookupA l k = none := by
      rcases ho : lookupA l k with _ | w
      · rfl
      · exact absurd (by rw [ho]; rfl) hs
    rw [lookupA_append, hnone]
    simp [lookupA]

theorem lookupA_insertA_ne (l : List (κ × α)) (k k' : κ) (v : α) (hne : k' ≠ k) :
    lookupA (insertA l k v) k' = lookupA l k' := by
  unfold insertA
  split
  · exact lookupA_map_replace_ne l k k' v hne
  · rw [lookupA_append]
    rcases ho : lookupA l k' with _ | v'
    · have hkk : ¬ (k = k') := fun hc => hne hc.symm
      simp [lookupA, hkk]
    · rfl

theorem lookupA_insertA_isSome {l : List (κ × α)} {k0 k : κ} {v : α}
    (h : (lookupA (insertA l k0 v) k).isSome = true) :
    (lookupA l k).isSome = true ∨ k = k0 := by
  by_cases hk : k = k0
  · exact Or.inr hk
  · rw [lookupA_insertA_ne l k0 k v hk] at h
    exact Or.inl h

theorem insFold_cons (e : List (κ × α)) (kv : κ × α) (l : List (κ × α)) :
    insFold e (kv :: l) = insFold (insertA e kv.1 kv.2) l := rfl

theorem lookupA_insFold_not_mem {l : List (κ × α)} {k : κ} (e : List (κ × α))
    (h : k ∉ keysOf l) :
    lookupA (insFold e l) k = lookupA e k := by
  induction l generalizing e with
  | nil => rfl
  | cons kv rest ih =>
    have hk : k ≠ kv.1 := by
      intro hc
      exact h (by simp [keysOf, hc])
    have hrest : k ∉ keysOf rest := by
      intro hc
      refine h ?_
      simp [keysOf] at hc ⊢
      exact Or.inr hc
    rw [insFold_cons, ih _ hrest, lookupA_insertA_ne _ _ _ _ hk]

theorem lookupA_insFold_mem {l : List (κ × α)} {k : κ} {a : α} (e : List (κ × α))
    (hnd : (keysOf l).Nodup) (hm : (k, a) ∈ l) :
    lookupA (insFold e l) k = some a := by
  induction l generalizing e with
  | nil => cases hm
  | cons kv rest ih =>
    rcases List.mem_cons.mp hm with heq | hrest
    · have hk : k = kv.1 := by rw [← heq]
      have hnotin : k ∉ keysOf rest := by
        rw [hk]
        exact (List.nodup_cons.mp (by simpa [keysOf] using hnd)).1
      rw [insFold_cons, lookupA_insFold_not_mem _ hnotin, ← heq]
      exact lookupA_insertA_self e k a
    · exact ih _ (List.nodup_cons.mp (by simpa [keysOf] using hnd)).2 hrest

theorem lookupA_insFold_isSome {l : List (κ × α)} {k : κ} {e : List (κ × α)}
    (h : (lookupA (insFold e l) k).isSome = true) :
    (lookupA e k).isSome = true ∨ k ∈ keysOf l := by
  induction l generalizing e with
  | nil => exact Or.inl h
  | cons kv rest ih =>
    rw [insFold_cons] at h
    rcases ih h with hs | hmem
    · rcases lookupA_insertA_isSome hs with hs' | hk
      · exact Or.inl hs'
      · exact Or.inr (by simp [keysOf, hk])
    · refine Or.inr ?_
      simp [keysOf] at hmem ⊢
      exact Or.inr hmem

theorem lookupA_insFold_isSome_of_mem {l : List (κ × α)} {k : κ} (e : List (κ × α))
    (hmem : k ∈ keysOf l) :
    (lookupA (insFold e l) k).isSome = true := by
  induction l generalizing e with
  | nil => cases hmem
  | cons kv rest ih =>
    by_cases hr : k ∈ keysOf rest
    · exact ih _ hr
    · have hk : k = kv.1 := by
        simp [keysOf] at hmem hr
        tauto
      rw [insFold_cons, lookupA_insFold_not_mem _ hr, hk, lookupA_insertA_self]
      rfl

theorem insFold_congr_lookup {k0 : κ} {E1 E2 : List (κ × α)} (l : List (κ × α))
    (hagree : ∀ k, k ≠ k0 → lookupA E1 k = lookupA E2 k) :
    ∀ k, k ≠ k0 → lookupA (insFold E1 l) k = lookupA (insFold E2 l) k := by
  induction l generalizing E1 E2 with
  | nil => exact hagree
  | cons kv rest ih =>
    refine ih ?_
    intro k hk
    by_cases hkk : k = kv.1
    · rw [hkk, lookupA_insertA_self, lookupA_insertA_self]
    · rw [lookupA_insertA_ne _ _ _ _ hkk, lookupA_insertA_ne _ _ _ _ hkk]
      exact hagree k hk

end AssocLemmas

/-! Heap lemmas. -/

theorem MSHeap.find_update_self (h : MSHeap) (b : Nat) (v : MetricSet) :
    (h.update b v).find b = (h.find b).map fun _ => v := by
  show lookupA (h.cells.map _) b = (lookupA h.cells b).map fun _ => v
  exact lookupA_map_replace_self h.cells b v

theorem MSHeap.find_update_ne (h : MSHeap) (a b : Nat) (v : MetricSet) (hne : a ≠ b) :
    (h.update b v).find a = h.find a := by
  show lookupA (h.cells.map _) a = lookupA h.cells a
  exact lookupA_map_replace_ne h.cells b a v hne

theorem MSHeap.update_next (h : MSHeap) (b : Nat) (v : MetricSet) :
    (h.update b v).next = h.next := rfl

/-! Labels are never touched by aggregation. -/

theorem aggregateMetric_Labels (src dst : MetricSet) (m : String) :
    (aggregateMetric src dst m).Labels = dst.Labels := by
  unfold aggregateMetric
  split
  · rfl
  · split
    · rfl
    · rfl

theorem aggregate_Labels (src dst : MetricSet) (ms : List String) :
    (aggregate src dst ms).Labels = dst.Labels := by
  unfold aggregate
  induction ms generalizing dst with
  | nil => rfl
  | cons m rest ih =>
    rw [List.foldl_cons]
    rw [ih (aggregateMetric src dst m), aggregateMetric_Labels]

theorem clusterFoldValue_Labels (m : List String) (init : MetricSet) (children : List MetricSet) :
    (clusterFoldValue m init children).Labels = init.Labels := by
  unfold clusterFoldValue
  induction children generalizing init with
  | nil => rfl
  | cons c rest ih =>
    rw [List.foldl_cons, ih (aggregate c init m), aggregate_Labels]



/-! Except monad unfolding lemmas. -/

theorem exceptBind_ok {ε α β : Type} (x : α) (f : α → Except ε β) :
    ((Except.ok x : Except ε α) >>= f) = f x := rfl

theorem exceptBind_error {ε α β : Type} (e : ε) (f : α → Except ε β) :
    ((Except.error e : Except ε α) >>= f) = .error e := rfl

/-! NodeAggregator fold lemmas. -/

theorem nodeProcessEntry_ok_entries {m : List String} {b : DataBatch} {st st' : AggState}
    {kv : String × Nat} (h : nodeProcessEntry m b st kv = .ok st') :
    st'.entries = insertA st.entries kv.1 kv.2 := by
  unfold nodeProcessEntry at h
  repeat' split at h
  all_goals try (have he := Except.ok.inj h; subst he; rfl)
  all_goals simp at h

theorem nodeProcessEntry_ok_heap_labels {m : List String} {b : DataBatch} {st st' : AggState}
    {kv : String × Nat} (h : nodeProcessEntry m b st kv = .ok st') (a : Nat) :
    (st'.heap.find a).map MetricSet.Labels = (st.heap.find a).map MetricSet.Labels := by
  unfold nodeProcessEntry at h
  split at h
  · have he := Except.ok.inj h
    subst he
    rfl
  · rename_i metricSet hms
    split at h
    · have he := Except.ok.inj h
      subst he
      rfl
    · rename_i mtype htype
      split at h
      · split at h
        · exact absurd h (by simp)
        · rename_i nodeName hnn
          split at h
          · have he := Except.ok.inj h
            subst he
            rfl
          · rename_i nodeAddr hna
            split at h
            · have he := Except.ok.inj h
              subst he
              rfl
            · rename_i node hnode
              have he := Except.ok.inj h
              subst he
              show ((st.heap.update nodeAddr (aggregate metricSet node m)).find a).map _ = _
              by_cases hcase : a = nodeAddr
              · subst hcase
                rw [MSHeap.find_update_self, hnode]
                simp [aggregate_Labels]
              · rw [MSHeap.find_update_ne _ _ _ _ hcase]
      · have he := Except.ok.inj h
        subst he
        rfl

theorem nodeFold_ok_entries {m : List String} {b : DataBatch} (l : List (String × Nat))
    (st st' : AggState) (h : l.foldlM (nodeProcessEntry m b) st = .ok st') :
    st'.entries = insFold st.entries l := by
  induction l generalizing st with
  | nil =>
    rw [List.foldlM_nil] at h
    have he := Except.ok.inj h
    rw [← he]
    rfl
  | cons kv rest ih =>
    rw [List.foldlM_cons] at h
    cases hstep : nodeProcessEntry m b st kv with
    | error e =>
      rw [hstep, exceptBind_error] at h
      simp at h
    | ok st1 =>
      rw [hstep, exceptBind_ok] at h
      rw [ih st1 h, insFold_cons, nodeProcessEntry_ok_entries hstep]

theorem nodeFold_ok_heap_labels {m : List String} {b : DataBatch} (l : List (String × Nat))
    (st st' : AggState) (h : l.foldlM (nodeProcessEntry m b) st = .ok st') (a : Nat) :
    (st'.heap.find a).map MetricSet.Labels = (st.heap.find a).map MetricSet.Labels := by
  induction l generalizing st with
  | nil =>
    rw [List.foldlM_nil] at h
    have he := Except.ok.inj h
    rw [← he]
  | cons kv rest ih =>
    rw [List.foldlM_cons] at h
    cases hstep : nodeProcessEntry m b st kv with
    | error e =>
      rw [hstep, exceptBind_error] at h
      simp at h
    | ok st1 =>
      rw [hstep, exceptBind_ok] at h
      rw [ih st1 h, nodeProcessEntry_ok_heap_labels hstep a]

theorem nodeFold_error {m : List String} {b : DataBatch} (l : List (String × Nat))
    (st : AggState) (k : String) (a : Nat) (lab : List (String × String))
    (hmem : (k, a) ∈ l)
    (hfind : (st.heap.find a).map MetricSet.Labels = some lab)
    (htype : lookupA lab LabelMetricSetTypeKey = some MetricSetTypePod)
    (hnode : lookupA lab LabelNodenameKey = none) :
    ∃ e, l.foldlM (nodeProcessEntry m b) st = .error e := by
  induction l generalizing st with
  | nil => cases hmem
  | cons kv rest ih =>
    rw [List.foldlM_cons]
    rcases List.mem_cons.mp hmem with heq | hrest
    · subst heq
      obtain ⟨ms, hms, hlab⟩ : ∃ ms, st.heap.find a = some ms ∧ ms.Labels = lab := by
        rcases ho : st.heap.find a with _ | ms
        · rw [ho] at hfind
          simp at hfind
        · rw [ho] at hfind
          simp at hfind
          exact ⟨ms, rfl, hfind⟩
      have hstep : nodeProcessEntry m b st (k, a) = .error ("No node info in pod " ++ k) := by
        unfold nodeProcessEntry
        simp only [hms, hlab, htype, hnode, eq_self_iff_true, if_true]
      rw [hstep, exceptBind_error]
      exact ⟨_, rfl⟩
    · cases hstep : nodeProcessEntry m b st kv with
      | error e => exact ⟨e, rfl⟩
      | ok st1 =>
        rw [exceptBind_ok]
        have hfind1 : (st1.heap.find a).map MetricSet.Labels = some lab := by
          rw [nodeProcessEntry_ok_heap_labels hstep a, hfind]
        exact ih st1 hrest hfind1


/-! ClusterAggregator step lemmas. -/

theorem lookupA_cons {κ α : Type} [DecidableEq κ] (p : κ × α) (rest : List (κ × α)) (k : κ) :
    lookupA (p :: rest) k = if p.1 = k then some p.2 else lookupA rest k := rfl

theorem MSHeap.find_prepend_self (cells : List (Nat × MetricSet)) (ca n : Nat) (v : MetricSet) :
    (MSHeap.mk ((ca, v) :: cells) n).find ca = some v := by
  show lookupA ((ca, v) :: cells) ca = some v
  rw [lookupA_cons, if_pos rfl]

theorem MSHeap.find_prepend_ne (cells : List (Nat × MetricSet)) (ca n a : Nat) (v : MetricSet)
    (hne : ca ≠ a) :
    (MSHeap.mk ((ca, v) :: cells) n).find a = lookupA cells a := by
  show lookupA ((ca, v) :: cells) a = lookupA cells a
  rw [lookupA_cons, if_neg hne]

theorem MSHeap.update_prepend (cells : List (Nat × MetricSet)) (ca n : Nat) (v w : MetricSet)
    (hcells : ∀ c ∈ cells, c.1 ≠ ca) :
    (MSHeap.mk ((ca, v) :: cells) n).update ca w = MSHeap.mk ((ca, w) :: cells) n := by
  unfold MSHeap.update
  congr 1
  rw [List.map_cons, if_pos rfl]
  congr 1
  have : ∀ c ∈ cells, (if c.1 = ca then (ca, w) else c) = c := by
    intro c hc
    rw [if_neg (hcells c hc)]
  rw [List.map_congr_left this]
  simp

theorem isClusterContributor_of_type {ms : MetricSet} {t : String}
    (hlt : lookupA ms.Labels LabelMetricSetTypeKey = some t)
    (hc : t = MetricSetTypeNamespace ∨ t = MetricSetTypeSystemContainer) :
    isClusterContributor ms = true := by
  unfold isClusterContributor
  rw [hlt]
  exact decide_eq_true hc

theorem isClusterContributor_none {ms : MetricSet}
    (hlt : lookupA ms.Labels LabelMetricSetTypeKey = none) :
    isClusterContributor ms = false := by
  unfold isClusterContributor
  rw [hlt]

theorem isClusterContributor_other {ms : MetricSet} {t : String}
    (hlt : lookupA ms.Labels LabelMetricSetTypeKey = some t)
    (hc : ¬ (t = MetricSetTypeNamespace ∨ t = MetricSetTypeSystemContainer)) :
    isClusterContributor ms = false := by
  unfold isClusterContributor
  rw [hlt]
  exact decide_eq_false hc

theorem contributorSets_cons_skip {h : MSHeap} {kv : String × Nat} (rest : List (String × Nat))
    (hskip : ∀ ms, h.find kv.2 = some ms → isClusterContributor ms = false) :
    contributorSets h (kv :: rest) = contributorSets h rest := by
  unfold contributorSets
  rw [List.filterMap_cons]
  rcases hf : h.find kv.2 with _ | ms
  · simp only [hf]
  · simp only [hf, hskip ms hf, Bool.false_eq_true, if_false]

theorem contributorSets_cons_yes {h : MSHeap} {kv : String × Nat} {ms : MetricSet}
    (rest : List (String × Nat)) (hf : h.find kv.2 = some ms)
    (hcon : isClusterContributor ms = true) :
    contributorSets h (kv :: rest) = ms :: contributorSets h rest := by
  unfold contributorSets
  rw [List.filterMap_cons]
  simp only [hf, hcon, if_true]

theorem clusterStep_noms {m : List String} {st : AggState} {kv : String × Nat}
    (hf : st.heap.find kv.2 = none) :
    clusterProcessEntry m st kv = ⟨insertA st.entries kv.1 kv.2, st.heap⟩ := by
  unfold clusterProcessEntry
  simp only [hf]

theorem clusterStep_notype {m : List String} {st : AggState} {kv : String × Nat} {ms : MetricSet}
    (hf : st.heap.find kv.2 = some ms)
    (hlt : lookupA ms.Labels LabelMetricSetTypeKey = none) :
    clusterProcessEntry m st kv = ⟨insertA st.entries kv.1 kv.2, st.heap⟩ := by
  unfold clusterProcessEntry
  simp only [hf, hlt]

theorem clusterStep_nocontrib {m : List String} {st : AggState} {kv : String × Nat}
    {ms : MetricSet} {t : String}
    (hf : st.heap.find kv.2 = some ms)
    (hlt : lookupA ms.Labels LabelMetricSetTypeKey = some t)
    (hc : ¬ (t = MetricSetTypeNamespace ∨ t = MetricSetTypeSystemContainer)) :
    clusterProcessEntry m st kv = ⟨insertA st.entries kv.1 kv.2, st.heap⟩ := by
  unfold clusterProcessEntry
  simp only [hf, hlt, if_neg hc]

theorem clusterStep_contrib_found {m : List String} {st : AggState} {kv : String × Nat}
    {ms cl : MetricSet} {t : String} {ca : Nat}
    (hf : st.heap.find kv.2 = some ms)
    (hlt : lookupA ms.Labels LabelMetricSetTypeKey = some t)
    (hc : t = MetricSetTypeNamespace ∨ t = MetricSetTypeSystemContainer)
    (hca : lookupA (insertA st.entries kv.1 kv.2) ClusterKey = some ca)
    (hfca : st.heap.find ca = some cl) :
    clusterProcessEntry m st kv =
      ⟨insertA st.entries kv.1 kv.2, st.heap.update ca (aggregate ms cl m)⟩ := by
  unfold clusterProcessEntry
  simp only [hf, hlt, if_pos hc, hca]
  unfold clusterAggregateInto
  simp only [hfca]

theorem clusterStep_contrib_new {m : List String} {st : AggState} {kv : String × Nat}
    {ms : MetricSet} {t : String}
    (hf : st.heap.find kv.2 = some ms)
    (hlt : lookupA ms.Labels LabelMetricSetTypeKey = some t)
    (hc : t = MetricSetTypeNamespace ∨ t = MetricSetTypeSystemContainer)
    (hca : lookupA (insertA st.entries kv.1 kv.2) ClusterKey = none)
    (hcells : ∀ c ∈ st.heap.cells, c.1 ≠ st.heap.next) :
    clusterProcessEntry m st kv =
      ⟨insertA (insertA st.entries kv.1 kv.2) ClusterKey st.heap.next,
        MSHeap.mk ((st.heap.next, aggregate ms clusterMetricSet m) :: st.heap.cells)
          (st.heap.next + 1)⟩ := by
  unfold clusterProcessEntry
  simp only [hf, hlt, if_pos hc, hca]
  unfold clusterAggregateInto MSHeap.alloc
  simp only [MSHeap.find_prepend_self]
  rw [MSHeap.update_prepend _ _ _ _ _ hcells]


/-- The cluster fold after the cluster set has been synthesised at address
`h.next`: every further contributor is aggregated into that address and the
rest of the heap is untouched. -/
theorem clusterFold_phaseB (m : List String) (l : List (String × Nat)) :
    ∀ (E : List (String × Nat)) (acc : MetricSet) (h : MSHeap),
    (∀ kv ∈ l, kv.2 < h.next) →
    (∀ kv ∈ l, kv.1 ≠ ClusterKey) →
    lookupA E ClusterKey = some h.next →
    (∀ c ∈ h.cells, c.1 ≠ h.next) →
    l.foldl (clusterProcessEntry m) ⟨E, MSHeap.mk ((h.next, acc) :: h.cells) (h.next + 1)⟩ =
      ⟨insFold E l,
        MSHeap.mk ((h.next, clusterFoldValue m acc (contributorSets h l)) :: h.cells)
          (h.next + 1)⟩ := by
  induction l with
  | nil =>
    intro E acc h _ _ _ _
    rfl
  | cons kv rest ih =>
    intro E acc h hb hnc hE hcells
    rw [List.foldl_cons]
    have hb2 : ∀ p ∈ rest, p.2 < h.next := fun p hp => hb p (List.mem_cons_of_mem _ hp)
    have hnc2 : ∀ p ∈ rest, p.1 ≠ ClusterKey := fun p hp => hnc p (List.mem_cons_of_mem _ hp)
    have hkne : kv.1 ≠ ClusterKey := hnc kv (List.mem_cons_self _ _)
    have hane : h.next ≠ kv.2 := by
      have := hb kv (List.mem_cons_self _ _)
      omega
    have hE2 : lookupA (insertA E kv.1 kv.2) ClusterKey = some h.next := by
      rw [lookupA_insertA_ne _ _ _ _ fun hc => hkne hc.symm]
      exact hE
    have hfind : (MSHeap.mk ((h.next, acc) :: h.cells) (h.next + 1)).find kv.2 = h.find kv.2 :=
      MSHeap.find_prepend_ne h.cells h.next (h.next + 1) kv.2 acc hane
    rcases hf : h.find kv.2 with _ | ms
    · have hstep : clusterProcessEntry m
          ⟨E, MSHeap.mk ((h.next, acc) :: h.cells) (h.next + 1)⟩ kv =
          ⟨insertA E kv.1 kv.2, MSHeap.mk ((h.next, acc) :: h.cells) (h.next + 1)⟩ :=
        clusterStep_noms (hfind.trans hf)
      rw [hstep, ih (insertA E kv.1 kv.2) acc h hb2 hnc2 hE2 hcells, insFold_cons,
        contributorSets_cons_skip rest (fun ms2 hms2 => absurd (hf ▸ hms2) (by simp))]
    · rcases hlt : lookupA ms.Labels LabelMetricSetTypeKey with _ | t
      · have hstep : clusterProcessEntry m
            ⟨E, MSHeap.mk ((h.next, acc) :: h.cells) (h.next + 1)⟩ kv =
            ⟨insertA E kv.1 kv.2, MSHeap.mk ((h.next, acc) :: h.cells) (h.next + 1)⟩ :=
          clusterStep_notype (hfind.trans hf) hlt
        rw [hstep, ih (insertA E kv.1 kv.2) acc h hb2 hnc2 hE2 hcells, insFold_cons,
          contributorSets_cons_skip rest ?_]
        intro ms2 hms2
        rw [hf] at hms2
        injection hms2 with hms2
        rw [← hms2]
        exact isClusterContributor_none hlt
      · by_cases hc : t = MetricSetTypeNamespace ∨ t = MetricSetTypeSystemContainer
        · have hupd : (MSHeap.mk ((h.next, acc) :: h.cells) (h.next + 1)).update h.next
              (aggregate ms acc m) =
              MSHeap.mk ((h.next, aggregate ms acc m) :: h.cells) (h.next + 1) :=
            MSHeap.update_prepend h.cells h.next (h.next + 1) acc _ hcells
          have hstep : clusterProcessEntry m
              ⟨E, MSHeap.mk ((h.next, acc) :: h.cells) (h.next + 1)⟩ kv =
              ⟨insertA E kv.1 kv.2,
                MSHeap.mk ((h.next, aggregate ms acc m) :: h.cells) (h.next + 1)⟩ := by
            rw [clusterStep_contrib_found (hfind.trans hf) hlt hc hE2
              (MSHeap.find_prepend_self h.cells h.next (h.next + 1) acc), hupd]
          rw [hstep, ih (insertA E kv.1 kv.2) (aggregate ms acc m) h hb2 hnc2 hE2 hcells,
            insFold_cons,
            contributorSets_cons_yes rest hf (isClusterContributor_of_type hlt hc)]
          rfl
        · have hstep : clusterProcessEntry m
              ⟨E, MSHeap.mk ((h.next, acc) :: h.cells) (h.next + 1)⟩ kv =
              ⟨insertA E kv.1 kv.2, MSHeap.mk ((h.next, acc) :: h.cells) (h.next + 1)⟩ :=
            clusterStep_nocontrib (hfind.trans hf) hlt hc
          rw [hstep, ih (insertA E kv.1 kv.2) acc h hb2 hnc2 hE2 hcells, insFold_cons,
            contributorSets_cons_skip rest ?_]
          intro ms2 hms2
          rw [hf] at hms2
          injection hms2 with hms2
          rw [← hms2]
          exact isClusterContributor_other hlt hc

/-- The cluster fold from a state without a cluster entry: if no entry
contributes, the heap is untouched and no cluster entry appears; otherwise the
cluster set is synthesised at the fresh address `h.next` and holds the fold of
the contributing sets over `clusterMetricSet`. -/
theorem clusterFold_phaseA (m : List String) (l : List (String × Nat)) :
    ∀ (E : List (String × Nat)) (h : MSHeap),
    (∀ kv ∈ l, kv.2 < h.next) →
    (∀ kv ∈ l, kv.1 ≠ ClusterKey) →
    lookupA E ClusterKey = none →
    (∀ c ∈ h.cells, c.1 ≠ h.next) →
    (contributorSets h l = [] →
      l.foldl (clusterProcessEntry m) ⟨E, h⟩ = ⟨insFold E l, h⟩) ∧
    (contributorSets h l ≠ [] →
      ∃ E2, l.foldl (clusterProcessEntry m) ⟨E, h⟩ =
          ⟨E2, MSHeap.mk ((h.next,
              clusterFoldValue m clusterMetricSet (contributorSets h l)) :: h.cells)
            (h.next + 1)⟩ ∧
        lookupA E2 ClusterKey = some h.next ∧
        (∀ k, k ≠ ClusterKey → lookupA E2 k = lookupA (insFold E l) k)) := by
  induction l with
  | nil =>
    intro E h _ _ _ _
    exact ⟨fun _ => rfl, fun hne => absurd rfl hne⟩
  | cons kv rest ih =>
    intro E h hb hnc hE hcells
    have hb2 : ∀ p ∈ rest, p.2 < h.next := fun p hp => hb p (List.mem_cons_of_mem _ hp)
    have hnc2 : ∀ p ∈ rest, p.1 ≠ ClusterKey := fun p hp => hnc p (List.mem_cons_of_mem _ hp)
    have hkne : kv.1 ≠ ClusterKey := hnc kv (List.mem_cons_self _ _)
    have hE2 : lookupA (insertA E kv.1 kv.2) ClusterKey = none := by
      rw [lookupA_insertA_ne _ _ _ _ fun hc => hkne hc.symm]
      exact hE
    have hCkrest : ClusterKey ∉ keysOf rest := by
      intro hmem
      simp only [keysOf, List.mem_map] at hmem
      obtain ⟨p, hp, hpk⟩ := hmem
      exact hnc2 p hp hpk
    rcases hf : h.find kv.2 with _ | ms
    · have hstep : clusterProcessEntry m ⟨E, h⟩ kv = ⟨insertA E kv.1 kv.2, h⟩ :=
        clusterStep_noms hf
      have hskip : contributorSets h (kv :: rest) = contributorSets h rest :=
        contributorSets_cons_skip rest (fun ms2 hms2 => absurd (hf ▸ hms2) (by simp))
      rw [List.foldl_cons, hstep, hskip, insFold_cons]
      exact ih (insertA E kv.1 kv.2) h hb2 hnc2 hE2 hcells
    · rcases hlt : lookupA ms.Labels LabelMetricSetTypeKey with _ | t
      · have hstep : clusterProcessEntry m ⟨E, h⟩ kv = ⟨insertA E kv.1 kv.2, h⟩ :=
          clusterStep_notype hf hlt
        have hskip : contributorSets h (kv :: rest) = contributorSets h rest := by
          refine contributorSets_cons_skip rest ?_
          intro ms2 hms2
          rw [hf] at hms2
          injection hms2 with hms2
          rw [← hms2]
          exact isClusterContributor_none hlt
        rw [List.foldl_cons, hstep, hskip, insFold_cons]
        exact ih (insertA E kv.1 kv.2) h hb2 hnc2 hE2 hcells
      · by_cases hc : t = MetricSetTypeNamespace ∨ t = MetricSetTypeSystemContainer
        · have hyes : contributorSets h (kv :: rest) = ms :: contributorSets h rest :=
            contributorSets_cons_yes rest hf (isClusterContributor_of_type hlt hc)
          have hstep : clusterProcessEntry m ⟨E, h⟩ kv =
              ⟨insertA (insertA E kv.1 kv.2) ClusterKey h.next,
                MSHeap.mk ((h.next, aggregate ms clusterMetricSet m) :: h.cells)
                  (h.next + 1)⟩ :=
            clusterStep_contrib_new hf hlt hc hE2 hcells
          constructor
          · intro hc0
            rw [hyes] at hc0
            cases hc0
          · intro _
            refine ⟨insFold (insertA (insertA E kv.1 kv.2) ClusterKey h.next) rest, ?_, ?_, ?_⟩
            · rw [List.foldl_cons, hstep,
                clusterFold_phaseB m rest (insertA (insertA E kv.1 kv.2) ClusterKey h.next)
                  (aggregate ms clusterMetricSet m) h hb2 hnc2
                  (lookupA_insertA_self _ _ _) hcells, hyes]
              rfl
            · rw [lookupA_insFold_not_mem _ hCkrest]
              exact lookupA_insertA_self _ _ _
            · intro k hk
              rw [insFold_cons]
              exact insFold_congr_lookup rest
                (fun k2 hk2 => lookupA_insertA_ne _ _ _ _ hk2) k hk
        · have hstep : clusterProcessEntry m ⟨E, h⟩ kv = ⟨insertA E kv.1 kv.2, h⟩ :=
            clusterStep_nocontrib hf hlt hc
          have hskip : contributorSets h (kv :: rest) = contributorSets h rest := by
            refine contributorSets_cons_skip rest ?_
            intro ms2 hms2
            rw [hf] at hms2
            injection hms2 with hms2
            rw [← hms2]
            exact isClusterContributor_other hlt hc
          rw [List.foldl_cons, hstep, hskip, insFold_cons]
          exact ih (insertA E kv.1 kv.2) h hb2 hnc2 hE2 hcells


/-- The entries of one cluster step: the entry itself is copied in, and the
cluster key is additionally inserted exactly when it was absent. -/
theorem clusterStep_entries_cases (m : List String) (st : AggState) (kv : String × Nat) :
    (clusterProcessEntry m st kv).entries = insertA st.entries kv.1 kv.2 ∨
    ((clusterProcessEntry m st kv).entries =
        insertA (insertA st.entries kv.1 kv.2) ClusterKey st.heap.next ∧
      lookupA (insertA st.entries kv.1 kv.2) ClusterKey = none) := by
  unfold clusterProcessEntry
  split
  · exact Or.inl rfl
  · split
    · exact Or.inl rfl
    · split
      · split
        · unfold clusterAggregateInto
          split
          · exact Or.inl rfl
          · exact Or.inl rfl
        · rename_i hca
          unfold clusterAggregateInto
          split
          · exact Or.inr ⟨rfl, hca⟩
          · exact Or.inr ⟨rfl, hca⟩
      · exact Or.inl rfl

theorem clusterFold_lookup_preserved (m : List String) (l : List (String × Nat)) :
    ∀ (st : AggState) (k : String) (a : Nat), lookupA st.entries k = some a →
    k ∉ keysOf l →
    lookupA (l.foldl (clusterProcessEntry m) st).entries k = some a := by
  induction l with
  | nil =>
    intro st k a hl _
    exact hl
  | cons kv rest ih =>
    intro st k a hl hnot
    rw [List.foldl_cons]
    have hkkv : k ≠ kv.1 := fun hc => hnot (by simp [keysOf, hc])
    have hnotrest : k ∉ keysOf rest := by
      intro hc
      refine hnot ?_
      simp [keysOf] at hc ⊢
      exact Or.inr hc
    refine ih _ k a ?_ hnotrest
    rcases clusterStep_entries_cases m st kv with hcase | ⟨hcase, hnone⟩
    · rw [hcase, lookupA_insertA_ne _ _ _ _ hkkv]
      exact hl
    · rw [hcase]
      by_cases hkc : k = ClusterKey
      · subst hkc
        rw [lookupA_insertA_ne _ _ _ _ hkkv, hl] at hnone
        cases hnone
      · rw [lookupA_insertA_ne _ _ _ _ hkc, lookupA_insertA_ne _ _ _ _ hkkv]
        exact hl

theorem clusterFold_lookup_mem (m : List String) (l : List (String × Nat)) :
    ∀ (st : AggState) (k : String) (a : Nat), (keysOf l).Nodup → (k, a) ∈ l →
    lookupA (l.foldl (clusterProcessEntry m) st).entries k = some a := by
  induction l with
  | nil =>
    intro st k a _ hm
    cases hm
  | cons kv rest ih =>
    intro st k a hnd hm
    rw [List.foldl_cons]
    have hndrest : (keysOf rest).Nodup := (List.nodup_cons.mp (by simpa [keysOf] using hnd)).2
    rcases List.mem_cons.mp hm with heq | hrest
    · subst heq
      have hnotin : k ∉ keysOf rest :=
        (List.nodup_cons.mp (by simpa [keysOf] using hnd)).1
      refine clusterFold_lookup_preserved m rest _ k a ?_ hnotin
      rcases clusterStep_entries_cases m st (k, a) with hcase | ⟨hcase, hnone⟩
      · rw [hcase]
        exact lookupA_insertA_self _ _ _
      · rw [hcase]
        by_cases hkc : k = ClusterKey
        · subst hkc
          rw [lookupA_insertA_self] at hnone
          cases hnone
        · rw [lookupA_insertA_ne _ _ _ _ hkc]
          exact lookupA_insertA_self _ _ _
    · exact ih _ k a hndrest hrest

theorem clusterFold_lookup_new (m : List String) (l : List (String × Nat)) :
    ∀ (st : AggState) (k : String),
    (lookupA (l.foldl (clusterProcessEntry m) st).entries k).isSome = true →
    (lookupA st.entries k).isSome = true ∨ k ∈ keysOf l ∨ k = ClusterKey := by
  induction l with
  | nil =>
    intro st k h
    exact Or.inl h
  | cons kv rest ih =>
    intro st k h
    rw [List.foldl_cons] at h
    rcases ih _ k h with hs | hmem | hck
    · rcases clusterStep_entries_cases m st kv with hcase | ⟨hcase, _⟩
      · rw [hcase] at hs
        rcases lookupA_insertA_isSome hs with hs2 | hk
        · exact Or.inl hs2
        · exact Or.inr (Or.inl (by simp [keysOf, hk]))
      · rw [hcase] at hs
        rcases lookupA_insertA_isSome hs with hs2 | hk
        · rcases lookupA_insertA_isSome hs2 with hs3 | hk2
          · exact Or.inl hs3
          · exact Or.inr (Or.inl (by simp [keysOf, hk2]))
        · exact Or.inr (Or.inr hk)
    · refine Or.inr (Or.inl ?_)
      simp [keysOf] at hmem ⊢
      exact Or.inr hmem
    · exact Or.inr (Or.inr hck)

/-- Inversion of a successful `NodeAggregator.Process`: the underlying fold
succeeded and produced the returned heap and batch. -/
theorem nodeProcess_ok_inv {this : NodeAggregator} {h : MSHeap} {batch : DataBatch}
    {h' : MSHeap} {b' : DataBatch}
    (hok : this.Process h batch = .ok (h', b')) :
    ∃ st : AggState,
      batch.MetricSets.foldlM (nodeProcessEntry this.MetricsToAggregate batch)
        (⟨[], h⟩ : AggState) = .ok st ∧
      h' = st.heap ∧ b' = ⟨batch.Timestamp, st.entries⟩ := by
  unfold NodeAggregator.Process at hok
  cases hfold : batch.MetricSets.foldlM (nodeProcessEntry this.MetricsToAggregate batch)
      (⟨[], h⟩ : AggState) with
  | error e =>
    rw [hfold, exceptBind_error] at hok
    cases hok
  | ok st =>
    rw [hfold, exceptBind_ok] at hok
    have hp := Except.ok.inj hok
    exact ⟨st, rfl, (congrArg Prod.fst hp).symm, (congrArg Prod.snd hp).symm⟩

/-- Inversion of `ClusterAggregator.Process` (which always succeeds). -/
theorem clusterProcess_ok_inv {this : ClusterAggregator} {h : MSHeap} {batch : DataBatch}
    {h' : MSHeap} {b' : DataBatch}
    (hok : this.Process h batch = .ok (h', b')) :
    h' = (batch.MetricSets.foldl (clusterProcessEntry this.MetricsToAggregate)
        (⟨[], h⟩ : AggState)).heap ∧
    b' = ⟨batch.Timestamp,
      (batch.MetricSets.foldl (clusterProcessEntry this.MetricsToAggregate)
        (⟨[], h⟩ : AggState)).entries⟩ := by
  unfold ClusterAggregator.Process at hok
  have hp := Except.ok.inj hok
  exact ⟨(congrArg Prod.fst hp).symm, (congrArg Prod.snd hp).symm⟩


/-- C1 (counterexample): on a batch holding a single `pod` MetricSet without
the `nodename` label, `NodeAggregator.Process` returns an error and no result
batch (the source returns `nil, fmt.Errorf(...)`), instead of skipping that
pod and returning the rest of the batch. -/
theorem nodeAggregator_missingNodename_counterexample :
    NodeAggregator.Process ⟨["cpu/usage_rate"]⟩ heapNoNodename batchNoNodename =
      .error "No node info in pod ns:default/pod:p1" := by rfl

/-- C1 (amended): if any MetricSet of the batch is labelled `metric_set_type =
pod` and lacks the `nodename` label, `NodeAggregator.Process` aborts the whole
batch, returning an error and no result batch; it is a pod whose `nodename`
names a node absent from the batch that is skipped with a warning while the
rest of the batch is processed. -/
theorem nodeAggregator_missingNodename_aborts (this : NodeAggregator) (h : MSHeap)
    (batch : DataBatch) (k : String) (a : Nat) (ms : MetricSet)
    (h1 : (k, a) ∈ batch.MetricSets)
    (h2 : h.find a = some ms)
    (h3 : lookupA ms.Labels LabelMetricSetTypeKey = some MetricSetTypePod)
    (h4 : lookupA ms.Labels LabelNodenameKey = none) :
    ∃ e, this.Process h batch = .error e := by
  have hfind : ((⟨[], h⟩ : AggState).heap.find a).map MetricSet.Labels = some ms.Labels := by
    show (h.find a).map _ = _
    rw [h2]
    rfl
  obtain ⟨e, he⟩ :=
    nodeFold_error batch.MetricSets ⟨[], h⟩ k a ms.Labels h1 hfind h3 h4
  refine ⟨e, ?_⟩
  unfold NodeAggregator.Process
  rw [he]
  rfl

/-- C1 (witness). -/
theorem nodeAggregator_missingNodename_aborts_witness :
    ∃ e, NodeAggregator.Process ⟨["cpu/usage_rate"]⟩ heapNoNodename batchNoNodename =
      .error e :=
  nodeAggregator_missingNodename_aborts ⟨["cpu/usage_rate"]⟩ heapNoNodename batchNoNodename
    "ns:default/pod:p1" 0 podSetNoNodename (by decide) (by decide) (by decide) (by decide)

/-- C3 (counterexample): a batch with one pod labelled `nodename = n1` and no
`node:n1` entry: `NodeAggregator.Process` succeeds, yet no `node:n1` parent is
synthesised in the result — the pod is skipped with a warning, contradicting
the claim that every required missing parent is synthesised with only the
`metric_set_type` label. -/
theorem nodeAggregator_noSynthesis_counterexample :
    NodeAggregator.Process ⟨["cpu/usage_rate"]⟩ heapPodOnly batchPodOnly =
      .ok (heapPodOnly, ⟨100, [("ns:default/pod:p1", 0)]⟩) ∧
    lookupA [(("ns:default/pod:p1" : String), (0 : Nat))] (NodeKey "n1") = none := by
  exact ⟨rfl, rfl⟩

/-- C3 (amended): ClusterAggregator synthesises a missing cluster parent as a
fresh MetricSet carrying only the `metric_set_type` label, but NodeAggregator
does not synthesise missing node parents: a successful result carries exactly
the entity keys of its input, pods whose node is absent being skipped. -/
theorem aggregator_parentSynthesis (metrics : List String) (h : MSHeap) (batch : DataBatch) :
    (∀ h' b', NodeAggregator.Process ⟨metrics⟩ h batch = .ok (h', b') →
      ∀ k, (lookupA b'.MetricSets k).isSome = true ↔
        (lookupA batch.MetricSets k).isSome = true) ∧
    ((∀ kv ∈ batch.MetricSets, kv.2 < h.next) →
      (∀ kv ∈ batch.MetricSets, kv.1 ≠ ClusterKey) →
      h.WF → contributorSets h batch.MetricSets ≠ [] →
      ∃ h' b', ClusterAggregator.Process ⟨metrics⟩ h batch = .ok (h', b') ∧
        lookupA b'.MetricSets ClusterKey = some h.next ∧
        ∃ cs, h'.find h.next = some cs ∧
          cs.Labels = [(LabelMetricSetTypeKey, MetricSetTypeCluster)]) := by
  constructor
  · intro h' b' hok k
    obtain ⟨st, hfold, hh, hb⟩ := nodeProcess_ok_inv hok
    have hent : b'.MetricSets = insFold [] batch.MetricSets := by
      rw [hb]
      exact nodeFold_ok_entries _ _ _ hfold
    rw [hent]
    constructor
    · intro hs
      rcases lookupA_insFold_isSome hs with hs2 | hmem
      · cases hs2
      · exact lookupA_isSome_iff.mpr hmem
    · intro hs
      exact lookupA_insFold_isSome_of_mem _ (lookupA_isSome_iff.mp hs)
  · intro h1 h2 h3 hcontrib
    have hcells : ∀ c ∈ h.cells, c.1 ≠ h.next := fun c hc => Nat.ne_of_lt (h3 c hc)
    obtain ⟨E2, hfold, hCk, _⟩ :=
      (clusterFold_phaseA metrics batch.MetricSets [] h h1 h2 rfl hcells).2 hcontrib
    refine ⟨MSHeap.mk ((h.next, clusterFoldValue metrics clusterMetricSet
        (contributorSets h batch.MetricSets)) :: h.cells) (h.next + 1),
      ⟨batch.Timestamp, E2⟩, ?_, hCk, ?_⟩
    · unfold ClusterAggregator.Process
      rw [hfold]
    · refine ⟨clusterFoldValue metrics clusterMetricSet (contributorSets h batch.MetricSets),
        MSHeap.find_prepend_self _ _ _ _, ?_⟩
      rw [clusterFoldValue_Labels]
      rfl

/-- C3 (witness). -/
theorem aggregator_parentSynthesis_witness :
    ((lookupA (⟨100, [("ns:default/pod:p1", 0)]⟩ : DataBatch).MetricSets "ns:default/pod:p1").isSome = true ↔
      (lookupA batchPodOnly.MetricSets "ns:default/pod:p1").isSome = true) ∧
    ∃ h' b', ClusterAggregator.Process ⟨["cpu/usage_rate"]⟩ heapNamespace batchNamespace =
        .ok (h', b') ∧
      lookupA b'.MetricSets ClusterKey = some heapNamespace.next ∧
      ∃ cs, h'.find heapNamespace.next = some cs ∧
        cs.Labels = [(LabelMetricSetTypeKey, MetricSetTypeCluster)] :=
  ⟨(aggregator_parentSynthesis ["cpu/usage_rate"] heapPodOnly batchPodOnly).1 heapPodOnly
      ⟨100, [("ns:default/pod:p1", 0)]⟩ (by rfl) "ns:default/pod:p1",
   (aggregator_parentSynthesis ["cpu/usage_rate"] heapNamespace batchNamespace).2
      (by decide) (by decide) (by decide) (by decide)⟩

/-- C8: ClusterAggregator.Process aggregates exactly the MetricSets labelled
`namespace` or `sys_container` — and no MetricSet of any other type — into the
single MetricSet under the cluster entity key: the cluster set of the result
is the fold of `aggregate` over precisely the contributing children in batch
order, starting from the synthesised cluster set, and no cluster entry appears
when there is no contributing child. -/
theorem clusterAggregator_contributors (this : ClusterAggregator) (h : MSHeap)
    (batch : DataBatch)
    (h1 : ∀ kv ∈ batch.MetricSets, kv.2 < h.next)
    (h2 : ∀ kv ∈ batch.MetricSets, kv.1 ≠ ClusterKey)
    (h3 : h.WF) :
    ∃ h2' b', this.Process h batch = .ok (h2', b') ∧ b'.Timestamp = batch.Timestamp ∧
      (contributorSets h batch.MetricSets = [] →
        lookupA b'.MetricSets ClusterKey = none ∧ h2' = h) ∧
      (contributorSets h batch.MetricSets ≠ [] →
        lookupA b'.MetricSets ClusterKey = some h.next ∧
        h2'.find h.next = some (clusterFoldValue this.MetricsToAggregate clusterMetricSet
          (contributorSets h batch.MetricSets))) := by
  have hcells : ∀ c ∈ h.cells, c.1 ≠ h.next := fun c hc => Nat.ne_of_lt (h3 c hc)
  have hphase := clusterFold_phaseA this.MetricsToAggregate batch.MetricSets [] h h1 h2 rfl hcells
  by_cases hcontrib : contributorSets h batch.MetricSets = []
  · refine ⟨h, ⟨batch.Timestamp, insFold [] batch.MetricSets⟩, ?_, rfl, ?_, ?_⟩
    · unfold ClusterAggregator.Process
      rw [hphase.1 hcontrib]
    · intro _
      have hnotin : ClusterKey ∉ keysOf batch.MetricSets := by
        intro hmem
        simp only [keysOf, List.mem_map] at hmem
        obtain ⟨p, hp, hpk⟩ := hmem
        exact h2 p hp hpk
      constructor
      · rw [lookupA_insFold_not_mem _ hnotin]
        rfl
      · rfl
    · intro hne
      exact absurd hcontrib hne
  · obtain ⟨E2, hfold, hCk, _⟩ := hphase.2 hcontrib
    refine ⟨MSHeap.mk ((h.next, clusterFoldValue this.MetricsToAggregate clusterMetricSet
        (contributorSets h batch.MetricSets)) :: h.cells) (h.next + 1),
      ⟨batch.Timestamp, E2⟩, ?_, rfl, ?_, ?_⟩
    · unfold ClusterAggregator.Process
      rw [hfold]
    · intro hc0
      exact absurd hc0 hcontrib
    · intro _
      exact ⟨hCk, MSHeap.find_prepend_self _ _ _ _⟩

/-- C8 (witness). -/
theorem clusterAggregator_contributors_witness :
    ∃ h2' b', ClusterAggregator.Process ⟨["cpu/usage_rate"]⟩ heapNamespace batchNamespace =
        .ok (h2', b') ∧
      b'.Timestamp = batchNamespace.Timestamp ∧
      (contributorSets heapNamespace batchNamespace.MetricSets = [] →
        lookupA b'.MetricSets ClusterKey = none ∧ h2' = heapNamespace) ∧
      (contributorSets heapNamespace batchNamespace.MetricSets ≠ [] →
        lookupA b'.MetricSets ClusterKey = some heapNamespace.next ∧
        h2'.find heapNamespace.next = some (clusterFoldValue ["cpu/usage_rate"]
          clusterMetricSet (contributorSets heapNamespace batchNamespace.MetricSets))) :=
  clusterAggregator_contributors ⟨["cpu/usage_rate"]⟩ heapNamespace batchNamespace
    (by decide) (by decide) (by decide)

/-- C9: whenever NodeAggregator.Process or ClusterAggregator.Process returns a
result batch, the result keeps the input's timestamp and maps every entity key
of the input to the very same MetricSet (the same heap address — in Go the same
pointer); aggregation only adds the cluster parent entry (NodeAggregator adds
no key at all), and never removes or replaces an input entry. -/
theorem aggregator_framePreservation (metrics : List String) (h : MSHeap) (batch : DataBatch)
    (hnodup : (keysOf batch.MetricSets).Nodup) :
    (∀ h' b', NodeAggregator.Process ⟨metrics⟩ h batch = .ok (h', b') →
      b'.Timestamp = batch.Timestamp ∧
      (∀ k a, lookupA batch.MetricSets k = some a → lookupA b'.MetricSets k = some a) ∧
      (∀ k, (lookupA b'.MetricSets k).isSome = true →
        (lookupA batch.MetricSets k).isSome = true)) ∧
    (∀ h' b', ClusterAggregator.Process ⟨metrics⟩ h batch = .ok (h', b') →
      b'.Timestamp = batch.Timestamp ∧
      (∀ k a, lookupA batch.MetricSets k = some a → lookupA b'.MetricSets k = some a) ∧
      (∀ k, (lookupA b'.MetricSets k).isSome = true →
        (lookupA batch.MetricSets k).isSome = true ∨ k = ClusterKey)) := by
  constructor
  · intro h' b' hok
    obtain ⟨st, hfold, hh, hb⟩ := nodeProcess_ok_inv hok
    have hent : b'.MetricSets = insFold [] batch.MetricSets := by
      rw [hb]
      exact nodeFold_ok_entries _ _ _ hfold
    refine ⟨by rw [hb], ?_, ?_⟩
    · intro k a hl
      rw [hent]
      exact lookupA_insFold_mem _ hnodup (lookupA_mem hl)
    · intro k hs
      rw [hent] at hs
      rcases lookupA_insFold_isSome hs with hs2 | hmem
      · cases hs2
      · exact lookupA_isSome_iff.mpr hmem
  · intro h' b' hok
    obtain ⟨hh, hb⟩ := clusterProcess_ok_inv hok
    refine ⟨by rw [hb], ?_, ?_⟩
    · intro k a hl
      rw [hb]
      exact clusterFold_lookup_mem metrics batch.MetricSets _ k a hnodup (lookupA_mem hl)
    · intro k hs
      rw [hb] at hs
      rcases clusterFold_lookup_new metrics batch.MetricSets _ k hs with hs2 | hmem | hck
      · cases hs2
      · exact Or.inl (lookupA_isSome_iff.mpr hmem)
      · exact Or.inr hck

/-- C9 (witness). -/
theorem aggregator_framePreservation_witness :
    ((⟨100, [("ns:default/pod:p1", 0)]⟩ : DataBatch).Timestamp = batchPodOnly.Timestamp ∧
      (∀ k a, lookupA batchPodOnly.MetricSets k = some a →
        lookupA (⟨100, [("ns:default/pod:p1", 0)]⟩ : DataBatch).MetricSets k = some a) ∧
      (∀ k, (lookupA (⟨100, [("ns:default/pod:p1", 0)]⟩ : DataBatch).MetricSets k).isSome = true →
        (lookupA batchPodOnly.MetricSets k).isSome = true)) :=
  ((aggregator_framePreservation ["cpu/usage_rate"] heapPodOnly batchPodOnly
    (by decide)).1 heapPodOnly ⟨100, [("ns:default/pod:p1", 0)]⟩ (by rfl))


/-! StatStore Get lemmas. -/

theorem startKeep_sublist (start : Nat) (rs : Option (Nat × Bool)) (l : List TimePoint) :
    (startKeep start rs l).Sublist l := by
  induction l generalizing rs with
  | nil => exact List.Sublist.refl _
  | cons p rest ih =>
    unfold startKeep
    split
    · exact List.Sublist.cons₂ p (ih _)
    · exact List.Sublist.cons p (ih _)

theorem get_sublist (s : StatStore) (startT endT : Nat) :
    (s.Get startT endT).Sublist s.buffer := by
  unfold StatStore.Get
  split
  · exact List.nil_sublist _
  · split
    · exact List.nil_sublist _
    · have hlf : (if startT = 0 then s.buffer else startKeep startT none s.buffer).Sublist
          s.buffer := by
        split
        · exact List.Sublist.refl _
        · exact startKeep_sublist startT none s.buffer
      split
      · exact hlf
      · exact (List.filter_sublist _).trans hlf

theorem startKeepDecide_some (start : Nat) (vk : Nat × Bool) (p : TimePoint) :
    startKeepDecide start (some vk) p =
      if p.Value = vk.1 then vk.2 else decide (start < p.Timestamp) := rfl

theorem startKeepDecide_none (start : Nat) (p : TimePoint) :
    startKeepDecide start none p = decide (start < p.Timestamp) := rfl

theorem startKeep_mem_bound (start : Nat) (W : List TimePoint) :
    ∀ (l : List TimePoint) (rs : Option (Nat × Bool)),
    (∀ x ∈ l, x ∈ W) →
    List.Pairwise (fun a b => b.Timestamp < a.Timestamp) l →
    (∀ v, rs = some (v, true) → ∃ q ∈ W, q.Value = v ∧ start < q.Timestamp ∧
      ∀ x ∈ l, x.Timestamp < q.Timestamp) →
    ∀ p ∈ startKeep start rs l, start < p.Timestamp ∨
      ∃ q ∈ W, q.Value = p.Value ∧ p.Timestamp < q.Timestamp ∧ start < q.Timestamp := by
  intro l
  induction l with
  | nil =>
    intro rs _ _ _ p hp
    cases hp
  | cons x rest ih =>
    intro rs hW hpw hinv p hp
    obtain ⟨hhead, htailpw⟩ := List.pairwise_cons.mp hpw
    unfold startKeep at hp
    by_cases hd : startKeepDecide start rs x = true
    · rw [if_pos hd] at hp
      rcases List.mem_cons.mp hp with heq | htail
      · subst heq
        rcases hrs : rs with _ | ⟨v1, b1⟩
        · rw [hrs, startKeepDecide_none] at hd
          exact Or.inl (of_decide_eq_true hd)
        · rw [hrs, startKeepDecide_some] at hd
          by_cases hv : p.Value = v1
          · rw [if_pos hv] at hd
            subst hd
            obtain ⟨q, hqW, hqv, hqstart, hqall⟩ := hinv v1 (by rw [hrs])
            exact Or.inr ⟨q, hqW, by rw [hqv, hv], hqall p (List.mem_cons_self _ _), hqstart⟩
          · rw [if_neg hv] at hd
            exact Or.inl (of_decide_eq_true hd)
      · refine ih (some (x.Value, startKeepDecide start rs x))
          (fun y hy => hW y (List.mem_cons_of_mem _ hy)) htailpw ?_ p ?_
        · intro v hv
          rw [hd] at hv
          injection hv with hv2
          obtain ⟨hv3, _⟩ := Prod.mk.inj hv2
          subst hv3
          rcases hrs : rs with _ | ⟨v1, b1⟩
          · rw [hrs, startKeepDecide_none] at hd
            exact ⟨x, hW x (List.mem_cons_self _ _), rfl, of_decide_eq_true hd,
              fun y hy => hhead y hy⟩
          · rw [hrs, startKeepDecide_some] at hd
            by_cases hxv : x.Value = v1
            · rw [if_pos hxv] at hd
              subst hd
              obtain ⟨q, hqW, hqv, hqstart, hqall⟩ := hinv v1 (by rw [hrs])
              exact ⟨q, hqW, by rw [hqv, hxv], hqstart,
                fun y hy => hqall y (List.mem_cons_of_mem _ hy)⟩
            · rw [if_neg hxv] at hd
              exact ⟨x, hW x (List.mem_cons_self _ _), rfl, of_decide_eq_true hd,
                fun y hy => hhead y hy⟩
        · exact htail
    · rw [if_neg hd] at hp
      have hd2 : startKeepDecide start rs x = false := by
        rcases hb : startKeepDecide start rs x
        · rfl
        · exact absurd hb hd
      refine ih (some (x.Value, startKeepDecide start rs x))
        (fun y hy => hW y (List.mem_cons_of_mem _ hy)) htailpw ?_ p hp
      intro v hv
      rw [hd2] at hv
      injection hv with hv2
      obtain ⟨_, hfalse⟩ := Prod.mk.inj hv2
      cases hfalse

/-- C5 (amended): for a well-formed store, `Get(start, end)` returns committed
samples newest first (non-increasing timestamps); every returned sample is at
or before a nonzero `end` (inclusive upper bound); zero bounds return all
committed samples; the result is empty when the store is empty or `end < start`
(both nonzero); and the lower bound is applied per run of consecutive equal
committed buckets — a returned sample at or before `start` always has an
equal-valued committed sample newer than `start`, so a sample exactly at
`start` is omitted only when it is the newest of its run. -/
theorem statStore_get_bounds (s : StatStore) (startT endT : Nat) (hwf : s.WF) :
    List.Pairwise (fun a b => b.Timestamp ≤ a.Timestamp) (s.Get startT endT) ∧
    (endT ≠ 0 → ∀ p ∈ s.Get startT endT, p.Timestamp ≤ endT) ∧
    s.Get 0 0 = s.buffer ∧
    (s.buffer = [] → s.Get startT endT = []) ∧
    (startT ≠ 0 → endT ≠ 0 → endT < startT → s.Get startT endT = []) ∧
    (startT ≠ 0 → ∀ p ∈ s.Get startT endT, startT < p.Timestamp ∨
      ∃ q ∈ s.buffer, q.Value = p.Value ∧ p.Timestamp < q.Timestamp ∧
        startT < q.Timestamp) := by
  refine ⟨?_, ?_, ?_, ?_, ?_, ?_⟩
  · exact ((hwf.1.sublist (get_sublist s startT endT)).imp fun hab => le_of_lt hab)
  · intro hend p hp
    unfold StatStore.Get at hp
    by_cases hb : s.buffer.isEmpty = true
    · rw [if_pos hb] at hp
      cases hp
    · by_cases hguard : startT ≠ 0 ∧ endT ≠ 0 ∧ endT < startT
      · rw [if_neg hb, if_pos hguard] at hp
        cases hp
      · rw [if_neg hb, if_neg hguard, if_neg hend] at hp
        simpa using (List.mem_filter.mp hp).2
  · unfold StatStore.Get
    by_cases hb : s.buffer.isEmpty
    · rw [if_pos hb]
      exact (List.isEmpty_iff.mp hb).symm
    · rw [if_neg hb]
      simp
  · intro hb
    unfold StatStore.Get
    rw [if_pos (by rw [hb]; rfl)]
  · intro hstart hend hlt
    unfold StatStore.Get
    split
    · rfl
    · rw [if_pos ⟨hstart, hend, hlt⟩]
  · intro hstart p hp
    have hmem : p ∈ startKeep startT none s.buffer := by
      unfold StatStore.Get at hp
      by_cases hb : s.buffer.isEmpty = true
      · rw [if_pos hb] at hp
        cases hp
      · by_cases hguard : startT ≠ 0 ∧ endT ≠ 0 ∧ endT < startT
        · rw [if_neg hb, if_pos hguard] at hp
          cases hp
        · by_cases hend : endT = 0
          · rw [if_neg hb, if_neg hguard, if_pos hend, if_neg hstart] at hp
            exact hp
          · rw [if_neg hb, if_neg hguard, if_neg hend, if_neg hstart] at hp
            exact (List.mem_filter.mp hp).1
    exact startKeep_mem_bound startT s.buffer s.buffer none (fun x hx => hx) hwf.1
      (fun v hv => by cases hv) p hmem

/-- C5 (witness). -/
theorem statStore_get_bounds_witness :
    testGetStore7.WF ∧
    (List.Pairwise (fun a b => b.Timestamp ≤ a.Timestamp) (testGetStore7.Get 780 900) ∧
    ((900 : Nat) ≠ 0 → ∀ p ∈ testGetStore7.Get 780 900, p.Timestamp ≤ 900) ∧
    testGetStore7.Get 0 0 = testGetStore7.buffer ∧
    (testGetStore7.buffer = [] → testGetStore7.Get 780 900 = []) ∧
    ((780 : Nat) ≠ 0 → (900 : Nat) ≠ 0 → (900 : Nat) < 780 → testGetStore7.Get 780 900 = []) ∧
    ((780 : Nat) ≠ 0 → ∀ p ∈ testGetStore7.Get 780 900, 780 < p.Timestamp ∨
      ∃ q ∈ testGetStore7.buffer, q.Value = p.Value ∧ p.Timestamp < q.Timestamp ∧
        780 < q.Timestamp)) :=
  ⟨by decide, statStore_get_bounds testGetStore7 780 900 (by decide)⟩

end Heapster
